import Mathlib

/-!
Verification development for the nanoMIDIPlayer MIDI-to-QWERTY translator
(`src/modules/midiHandler/midiToQWERTYLinux.py`), X11/pynput backend branch.

The Python module is shallowly embedded: the mutable module globals
(`pressedKeys`, `heldKeys`, `timerList`, `sustainActive`) become a state
record `St`; the pynput controller (the Output Backend) is modelled as a
trace of `BEvent` press/release events; Python exceptions become an
`Option PyErr` component of every action's result, with the state at the
moment of the raise preserved (Python does not roll back side effects).
Dictionaries are insertion-ordered association lists, as in CPython 3.7+.
-/

namespace MidiQwerty

/-- The four pynput special keys reachable from `specialKeyMap`, plus the
named keys consulted by `blockedKeys` (`Key.f1` .. `Key.f12`, `Key.tab`,
`Key.backspace`, `Key.esc`). -/
inductive SpecialKey where
  | shift | ctrl | alt | space
  | f (n : Nat)
  | tab | backspace | esc
deriving DecidableEq, Repr

/-- A translated key object: either a pynput special `Key` or a one-character
string, mirroring what `translateKey` can return. -/
inductive KeyObj where
  | special (k : SpecialKey)
  | char (c : Char)
deriving DecidableEq, Repr

/-- The argument of `press`/`release`: a Python string or a pynput `Key`
object (in the module, `Key` objects only arise for special keys). -/
inductive KeyInput where
  | str (s : String)
  | pyn (k : SpecialKey)
deriving DecidableEq, Repr

/-- The Python exception classes that the module's code paths can raise. -/
inductive PyErr where
  | keyError | valueError | indexError
deriving DecidableEq, Repr

/-- Value stored in the `heldKeys` dict: either the key object itself
(`heldKeys[str(keyObj)] = keyObj`) or the `(Key.shift, char)` pair stored
for a shift-wrapped character press. -/
inductive HeldVal where
  | single (k : KeyObj)
  | shiftPair (c : Char)
deriving DecidableEq, Repr

/-- One call to the Output Backend (the `pynput` controller). -/
inductive BEvent where
  | bpress (k : KeyObj)
  | brelease (k : KeyObj)
deriving DecidableEq, Repr

/-- The `msgType` string passed to `simulateKey`. -/
inductive MType where
  | note_on | note_off
deriving DecidableEq, Repr

/-- An incoming mido message, as far as `parseMidi` inspects it. -/
inductive MidiMsg where
  | noteMsg (t : MType) (note : Int) (velocity : Nat)
  | controlMsg (value : Nat)
deriving DecidableEq, Repr

/-- The module-level mutable state: the observational `pressedKeys` set,
the `heldKeys` ledger (insertion-ordered dict), the pending-release timer
list, and the sustain latch flag. -/
structure St where
  pressedKeys : List String
  heldKeys : List (String × HeldVal)
  timerList : List KeyInput
  sustainActive : Bool
deriving DecidableEq, Repr

/-- Fresh module state at import time. -/
def initSt : St := ⟨[], [], [], false⟩

/-- The slice of `configData["midiToQwerty"]` that the translator reads.
Note-number keys are `str(int)` in the JSON; since `str` is injective on
integers they are modelled as `Int` keys directly. -/
structure Config where
  letterNoteMap : List (Int × String)
  lowNotes : List (Int × String)
  highNotes : List (Int × String)
  velocityMap : List (Nat × String)
  velocity : Bool
  noDoubles : Bool
  sustain : Bool
  sustainCutoff : Nat
  customHoldEnabled : Bool
deriving DecidableEq, Repr

/-- One-character string. -/
def strOne (c : Char) : String := String.mk [c]

/-- Python `s.startswith(p)` (character-wise; all tokens here are ASCII). -/
def strStarts (s p : String) : Bool := p.data.isPrefixOf s.data

/-- Python slicing `s[n:]`. -/
def strDrop (s : String) (n : Nat) : String := String.mk (s.data.drop n)

/-- Python `str.lower()`, restricted to the ASCII range that
`Char.toLower` handles (all key tokens in this module are ASCII). -/
def strLower (s : String) : String := String.mk (s.data.map Char.toLower)

/-- `Key.name` for the special keys (pynput's `name` attribute). -/
def keyName : SpecialKey → String
  | .shift => "shift"
  | .ctrl => "ctrl"
  | .alt => "alt"
  | .space => "space"
  | .f n => "f" ++ toString n
  | .tab => "tab"
  | .backspace => "backspace"
  | .esc => "esc"

/-- Python `str(keyObj)`: `"Key.<name>"` for a pynput special key, the
string itself for a one-character string. -/
def pyStr : KeyObj → String
  | .special k => "Key." ++ keyName k
  | .char c => strOne c

/-- The key name recorded by `logKeys` (`key.name` for a `Key`, `str(key)`
otherwise). -/
def logName : KeyObj → String
  | .special k => keyName k
  | .char c => strOne c

/-- `specialKeyMap` lookup. -/
def specialOfName (s : String) : Option SpecialKey :=
  if s = "shift" then some .shift
  else if s = "ctrl" then some .ctrl
  else if s = "alt" then some .alt
  else if s = "space" then some .space
  else none

/-- `translateKey` of the pynput backend: lower-case a string argument,
map the four special names through `specialKeyMap`, keep one-character
strings, keep `Key` objects, and raise `ValueError` otherwise. -/
def translateKey : KeyInput → Except PyErr KeyObj
  | .str s =>
    match specialOfName (strLower s) with
    | some k => .ok (.special k)
    | none =>
      match (strLower s).data with
      | [c] => .ok (.char c)
      | _ => .error .valueError
  | .pyn k => .ok (.special k)

/-- The `blockedKeys` set: `f1`..`f12`, `tab`, `backspace`, `esc`. -/
def blockedNames : List String :=
  ((List.range 12).map (fun i => "f" ++ toString (i + 1))) ++ ["tab", "backspace", "esc"]

/-- `isBlockedKey`: a one-character string is checked against the name
set; a `Key` object is blocked when its `name` is in the set or when
`str(key)` starts with `key.f1` .. `key.f12`. -/
def isBlockedKey : KeyObj → Bool
  | .char c => blockedNames.contains (strOne (Char.toLower c))
  | .special k =>
    if blockedNames.contains (strLower (keyName k)) then true
    else
      strStarts (strLower (pyStr (.special k))) "key.f" &&
        (List.range 12).any (fun i =>
          strStarts (strLower (pyStr (.special k))) ("key.f" ++ toString (i + 1)))

/-- The `shiftChars` set of the pynput backend
(`"!@#$%^&*()_+{}:\"<>?|~"`). -/
def shiftChars : List Char :=
  ['!', '@', '#', '$', '%', '^', '&', '*', '(', ')', '_', '+',
   '\x7b', '\x7d', ':', '\x22', '<', '>', '?', '|', '~']

/-- The character class of the regex `[!@$%^*(]` used by `simulateKey`. -/
def symChars : List Char := ['!', '@', '$', '%', '^', '*', '(']

/-- `re.search("[!@$%^*(]", key)` succeeds. -/
def hasSymbol (s : String) : Bool := s.data.any (fun c => symChars.contains c)

/-- ASCII approximation of Python's notion of a cased character. -/
def isCasedAscii (c : Char) : Bool := c.isUpper || c.isLower

/-- Python `str.isupper()`: at least one cased character and no lower-case
cased character (over the ASCII tokens this module uses). -/
def pyIsUpper (s : String) : Bool :=
  s.data.any isCasedAscii && s.data.all (fun c => !isCasedAscii c || c.isUpper)

/-- Python `set.add` on the modelled `pressedKeys` set. -/
def setInsert (l : List String) (x : String) : List String :=
  if x ∈ l then l else l ++ [x]

/-- Python `set.remove` guarded by a membership test. -/
def setErase (l : List String) (x : String) : List String :=
  l.filter (fun y => y ≠ x)

/-- CPython dict assignment: update in place if the key exists, else
append at the end (insertion order preserved). -/
def dictInsert (d : List (String × HeldVal)) (k : String) (v : HeldVal) :
    List (String × HeldVal) :=
  if (d.map Prod.fst).contains k then
    d.map (fun p => if p.1 = k then (k, v) else p)
  else d ++ [(k, v)]

/-- `del d[k]` guarded by `if k in d` (absent key is a no-op). -/
def dictErase (d : List (String × HeldVal)) (k : String) : List (String × HeldVal) :=
  d.filter (fun p => p.1 ≠ k)

/-- An action over the module state: final state, Output Backend trace,
and the exception it raised, if any (effects up to the raise retained). -/
def Act : Type := St → St × List BEvent × Option PyErr

/-- Action with no effect. -/
def skip : Act := fun s => (s, [], none)

/-- Sequencing with Python exception semantics: if `a` raises, `b` never
runs and `a`'s partial effects stand. -/
def aseq (a b : Act) : Act := fun s =>
  match a s with
  | (s1, t1, none) =>
    match b s1 with
    | (s2, t2, e) => (s2, t1 ++ t2, e)
  | (s1, t1, some e) => (s1, t1, some e)

/-- `logKeys`: maintain the observational `pressedKeys` set
(`true` = press, `false` = release). -/
def logKeys (isPress : Bool) (k : KeyObj) (s : St) : St :=
  if isPress then { s with pressedKeys := setInsert s.pressedKeys (logName k) }
  else { s with pressedKeys := setErase s.pressedKeys (logName k) }

/-- The non-shift path of `press`: controller press, `logKeys`, record
`heldKeys[str(keyObj)] = keyObj`. -/
def plainPress (keyObj : KeyObj) : Act := fun s =>
  let s1 := logKeys true keyObj s
  ({ s1 with heldKeys := dictInsert s1.heldKeys (pyStr keyObj) (.single keyObj) },
   [.bpress keyObj], none)

/-- The non-shift path of `release`: controller release, `logKeys`,
delete the `heldKeys` entry if present. -/
def plainRelease (keyObj : KeyObj) : Act := fun s =>
  let s1 := logKeys false keyObj s
  ({ s1 with heldKeys := dictErase s1.heldKeys (pyStr keyObj) },
   [.brelease keyObj], none)

/-- `press` of the pynput backend: translate, drop blocked keys, wrap
shift-requiring characters with a controller-level shift press (recorded
as a `"shift+<c>"` ledger entry, without `logKeys`), otherwise press
plainly. -/
def press (k : KeyInput) : Act := fun s =>
  match translateKey k with
  | .error e => (s, [], some e)
  | .ok keyObj =>
    if isBlockedKey keyObj then (s, [], none)
    else
      match keyObj with
      | .char c =>
        if shiftChars.contains c then
          ({ s with heldKeys := dictInsert s.heldKeys ("shift+" ++ strOne c) (.shiftPair c) },
           [.bpress (.special .shift), .bpress (.char c)], none)
        else plainPress (.char c) s
      | .special sk => plainPress (.special sk) s

/-- `release` of the pynput backend, symmetric to `press`. -/
def release (k : KeyInput) : Act := fun s =>
  match translateKey k with
  | .error e => (s, [], some e)
  | .ok keyObj =>
    if isBlockedKey keyObj then (s, [], none)
    else
      match keyObj with
      | .char c =>
        if shiftChars.contains c then
          ({ s with heldKeys := dictErase s.heldKeys ("shift+" ++ strOne c) },
           [.brelease (.char c), .brelease (.special .shift)], none)
        else plainRelease (.char c) s
      | .special sk => plainRelease (.special sk) s

/-- `pressAndMaybeRelease`: press, and when the custom hold length is
enabled, arm a one-shot release timer (modelled as the pending key
appended to `timerList`; the asynchronous firing is outside this
sequential model). -/
def pressAndMaybeRelease (cfg : Config) (k : KeyInput) : Act :=
  aseq (press k) (fun s =>
    if cfg.customHoldEnabled then ({ s with timerList := s.timerList ++ [k] }, [], none)
    else (s, [], none))

/-- Insert into an ascending list (helper for `sortNat`). -/
def insNat (x : Nat) : List Nat → List Nat
  | [] => [x]
  | y :: ys => if x ≤ y then x :: y :: ys else y :: insNat x ys

/-- Python `sorted` over the integer threshold keys (insertion sort; the
ascending permutation of a list of naturals is unique, so this agrees
with CPython's sort extensionally). -/
def sortNat : List Nat → List Nat
  | [] => []
  | x :: xs => insNat x (sortNat xs)

/-- Association-list lookup for the `Nat`-keyed velocity map. -/
def lookupNat (m : List (Nat × String)) (k : Nat) : Option String :=
  match m.find? (fun p => p.1 = k) with
  | some p => some p.2
  | none => none

/-- Association-list lookup for the `Int`-keyed note maps (Python
`m[str(note)]` / `str(note) in m`). -/
def lookupInt (m : List (Int × String)) (k : Int) : Option String :=
  match m.find? (fun p => p.1 = k) with
  | some p => some p.2
  | none => none

/-- The `while minimum <= maximum` loop of `findVelocityKey`. `index` is
assigned the midpoint before the boundary break, and the last assigned
value is returned when the window empties. The loop only runs with
`minimum`/`maximum` in `[0, len-1]`, so `Nat` arithmetic is exact. -/
def fvkLoop (ts : List Nat) (v : Nat) (minimum maximum index : Nat) : Nat :=
  if _h : minimum ≤ maximum then
    if (minimum + maximum) / 2 = 0 ∨ (minimum + maximum) / 2 = ts.length - 1 then
      (minimum + maximum) / 2
    else if ts.getD ((minimum + maximum) / 2) 0 < v then
      fvkLoop ts v ((minimum + maximum) / 2 + 1) maximum ((minimum + maximum) / 2)
    else
      fvkLoop ts v minimum ((minimum + maximum) / 2 - 1) ((minimum + maximum) / 2)
  else index
termination_by maximum + 1 - minimum
decreasing_by
  · omega
  · omega

/-- The index selected by `findVelocityKey`'s search on the sorted
threshold list. -/
def fvkIndex (vm : List (Nat × String)) (v : Nat) : Nat :=
  fvkLoop (sortNat (vm.map Prod.fst)) v 0 ((sortNat (vm.map Prod.fst)).length - 1) 0

/-- The threshold `thresholds[index]` that `findVelocityKey` resolves
(`none` when the table is empty and `thresholds[0]` raises). -/
def findVelocityThreshold (vm : List (Nat × String)) (v : Nat) : Option Nat :=
  if (sortNat (vm.map Prod.fst)).isEmpty then none
  else some ((sortNat (vm.map Prod.fst)).getD (fvkIndex vm v) 0)

/-- `findVelocityKey`: sort the thresholds, binary-search with boundary
early-exit, return `velocityMap[str(thresholds[index])]`. An empty table
raises `IndexError` at `thresholds[index]`. -/
def findVelocityKey (vm : List (Nat × String)) (v : Nat) : Except PyErr String :=
  if (sortNat (vm.map Prod.fst)).isEmpty then .error .indexError
  else
    match lookupNat vm ((sortNat (vm.map Prod.fst)).getD (fvkIndex vm v) 0) with
    | some s => .ok s
    | none => .error .keyError

/-- The `if str(note) in letterNoteMap ... elif lowNotes ... elif
highNotes` resolution chain of `simulateKey`. -/
def resolveKey (cfg : Config) (note : Int) : Option String :=
  match lookupInt cfg.letterNoteMap note with
  | some k => some k
  | none =>
    match lookupInt cfg.lowNotes note with
    | some k => some k
    | none =>
      match lookupInt cfg.highNotes note with
      | some k => some k
      | none => none

/-- The resolver as §4.1 of the spec words it: consult the compact map,
then the low extension, then the high extension, first hit wins. -/
def resolveSpec (cfg : Config) (note : Int) : Option String :=
  ((lookupInt cfg.letterNoteMap note).toList ++ (lookupInt cfg.lowNotes note).toList ++
    (lookupInt cfg.highNotes note).toList).head?

/-- The velocity bracket of the `note_on` body: classify the velocity,
then press alt, press the modifier, release the modifier, release alt.
Skipped when the velocity feature is off; a raise from `findVelocityKey`
aborts the event before any press. -/
def velAct (cfg : Config) (velocity : Nat) : Act :=
  if cfg.velocity then
    fun s =>
      match findVelocityKey cfg.velocityMap velocity with
      | .error e => (s, [], some e)
      | .ok vk =>
        (aseq (press (.str "alt"))
          (aseq (press (.str vk)) (aseq (release (.str vk)) (release (.str "alt"))))) s
  else skip

/-- The no-doubles pre-release inside the natural register: release the
previous semitone's key for symbol keys (a missing `letterNoteMap`
lookup raises `KeyError`), else release the lower-case form. -/
def dedupAct (cfg : Config) (note : Int) (key : String) : Act :=
  if cfg.noDoubles then
    if hasSymbol key then
      fun s =>
        match lookupInt cfg.letterNoteMap (note - 1) with
        | none => (s, [], some .keyError)
        | some pk => release (.str pk) s
    else release (.str (strLower key))
  else skip

/-- The natural-register press branch: shift-wrap the previous semitone's
key for symbol keys (the `letterNoteMap[str(note - 1)]` lookup happens
in the preceding f-string log call, before shift goes down), shift-wrap
the lower-case form for upper-case keys, else press directly. -/
def branchAct (cfg : Config) (note : Int) (key : String) : Act :=
  if hasSymbol key then
    fun s =>
      match lookupInt cfg.letterNoteMap (note - 1) with
      | none => (s, [], some .keyError)
      | some pk =>
        (aseq (press (.str "shift"))
          (aseq (pressAndMaybeRelease cfg (.str pk)) (release (.str "shift")))) s
  else if pyIsUpper key then
    aseq (press (.str "shift"))
      (aseq (pressAndMaybeRelease cfg (.str (strLower key))) (release (.str "shift")))
  else pressAndMaybeRelease cfg (.str key)

/-- The octave-transposition branch for notes outside `[36, 96]`:
defensive release, then ctrl-wrapped press of the lower-case form. -/
def octaveAct (cfg : Config) (key : String) : Act :=
  aseq (release (.str (strLower key)))
    (aseq (press (.str "ctrl"))
      (aseq (pressAndMaybeRelease cfg (.str (strLower key))) (release (.str "ctrl"))))

/-- The `note_on` body of `simulateKey` (after range gate, resolution and
the piano-display notification). -/
def noteOnAct (cfg : Config) (note : Int) (velocity : Nat) (key : String) : Act :=
  aseq (velAct cfg velocity)
    (if 36 ≤ note ∧ note ≤ 96 then aseq (dedupAct cfg note key) (branchAct cfg note key)
     else octaveAct cfg key)

/-- The `note_off` body of `simulateKey`: symmetric release with the same
symbol branching; outside the natural register only the lower-case
release is issued. -/
def noteOffAct (cfg : Config) (note : Int) (key : String) : Act :=
  if 36 ≤ note ∧ note ≤ 96 then
    if hasSymbol key then
      fun s =>
        match lookupInt cfg.letterNoteMap (note - 1) with
        | none => (s, [], some .keyError)
        | some pk => release (.str pk) s
    else release (.str (strLower key))
  else release (.str (strLower key))

/-- `simulateKey`: range gate on `note - 36`, key resolution (an
unresolved or empty key drops the event), then the per-type body. The
piano-display notification is an external, notification-only
collaborator and is not modelled. -/
def simulateKey (cfg : Config) (t : MType) (note : Int) (velocity : Nat) : Act := fun s =>
  if -15 ≤ note - 36 ∧ note - 36 ≤ 88 then
    match resolveKey cfg note with
    | none => (s, [], none)
    | some key =>
      if key = "" then (s, [], none)
      else
        match t with
        | .note_on => noteOnAct cfg note velocity key s
        | .note_off => noteOffAct cfg note key s
  else (s, [], none)

/-- The `except IndexError: pass` wrapper around the `simulateKey`
dispatch in `parseMidi`. -/
def catchIndex : St × List BEvent × Option PyErr → St × List BEvent × Option PyErr
  | (s, t, some .indexError) => (s, t, none)
  | r => r

/-- `parseMidi`: sustain latch on control-change messages (when enabled),
zero-velocity note-on demoted to note-off, and only `IndexError` caught
around the note dispatch. -/
def parseMidi (cfg : Config) (m : MidiMsg) : Act := fun s =>
  match m with
  | .controlMsg value =>
    if cfg.sustain then
      if !s.sustainActive && decide (value > cfg.sustainCutoff) then
        press (.str "space") { s with sustainActive := true }
      else if s.sustainActive && decide (value < cfg.sustainCutoff) then
        release (.str "space") { s with sustainActive := false }
      else (s, [], none)
    else (s, [], none)
  | .noteMsg t note velocity =>
    catchIndex (simulateKey cfg (if velocity = 0 then .note_off else t) note velocity s)

/-- The MIDI input loop body: messages are handled strictly in sequence;
an exception that escapes `parseMidi` kills the reader thread, so no
later message is processed. -/
def runMsgs (cfg : Config) : List MidiMsg → Act
  | [] => skip
  | m :: rest => aseq (parseMidi cfg m) (runMsgs cfg rest)

/-- The Output Backend releases that the shutdown sweep issues for one
ledger entry key: a `"shift+<c>"` entry gets the character and shift
releases; any other entry goes through `release`, whose `ValueError` on
an untranslatable name (e.g. `"Key.space"`) is swallowed by the sweep's
`except Exception: pass`. -/
def entryReleases (k : String) : List BEvent :=
  if strStarts k "shift+" then
    match (strDrop k 6).data with
    | [c] => [.brelease (.char c), .brelease (.special .shift)]
    | _ => []
  else
    match translateKey (.str k) with
    | .error _ => []
    | .ok keyObj =>
      if isBlockedKey keyObj then []
      else
        match keyObj with
        | .char c =>
          if shiftChars.contains c then [.brelease (.char c), .brelease (.special .shift)]
          else [.brelease (.char c)]
        | .special sk => [.brelease (.special sk)]

/-- The shutdown sweep's per-entry action (`stopMidiInput`'s `for key in
list(heldKeys.keys())` body): `"shift+"`-prefixed entries release the
character and shift directly at the controller (a multi-character rest
makes the controller raise, swallowed); other entries go through
`release` with every exception swallowed. -/
def stopEntrySweep (k : String) : Act := fun s =>
  if strStarts k "shift+" then
    match (strDrop k 6).data with
    | [c] => (s, [.brelease (.char c), .brelease (.special .shift)], none)
    | _ => (s, [], none)
  else
    match release (.str k) s with
    | (s1, t, _) => (s1, t, none)

/-- Iterate the sweep over a snapshot of the ledger's keys. -/
def sweepAct : List String → Act
  | [] => skip
  | k :: ks => aseq (stopEntrySweep k) (sweepAct ks)

/-- `stopMidiInput`, restricted to the state this model carries: sweep a
snapshot of `heldKeys`, then `heldKeys.clear()`, cancel and clear every
timer. (Signalling the reader thread, closing the port and the
piano-display cleanup are external effects with no bearing on the
ledger or the backend trace.) Note `sustainActive` is left as is. -/
def stopMidiInput : Act := fun s =>
  match sweepAct (s.heldKeys.map Prod.fst) s with
  | (s1, tr, _) => ({ s1 with heldKeys := [], timerList := [] }, tr, none)

/-- The canonical `heldKeys` identity that `press` records for a
translated key object (and that the matching `release` removes). -/
def entryKeyOf : KeyObj → String
  | .char c => if shiftChars.contains c then "shift+" ++ strOne c else strOne c
  | .special k => "Key." ++ keyName k

/-- The value stored under `entryKeyOf`. -/
def entryValOf : KeyObj → HeldVal
  | .char c => if shiftChars.contains c then .shiftPair c else .single (.char c)
  | .special k => .single (.special k)

/-- A string is a usable key token for the pynput backend: `translateKey`
succeeds on it. -/
def tokenOk (t : String) : Bool :=
  match translateKey (.str t) with
  | .ok _ => true
  | .error _ => false

/-- `a` raises nothing and transforms the `heldKeys` ledger by `f`,
whatever the rest of the state is. -/
def HKOk (a : Act) (f : List (String × HeldVal) → List (String × HeldVal)) : Prop :=
  ∀ s, (a s).2.2 = none ∧ (a s).1.heldKeys = f s.heldKeys

/-- Config for the C1 counterexample: sustain handling enabled, cutoff
64, everything else off/empty. -/
def cexCfgC1 : Config := ⟨[], [], [], [], false, false, true, 64, false⟩

/-- State reached from a fresh module by handling one sustain-pedal-down
control change: the ledger holds the single entry `"Key.space"`. -/
def cexStC1 : St := (parseMidi cexCfgC1 (.controlMsg 100) initSt).1

/-- Config for the C2 counterexample: note 61 resolves to the symbol
`"!"` but note 60 has no mapping, so the symbol branch's
`letterNoteMap[str(note - 1)]` raises `KeyError`. -/
def cexCfgC2 : Config := ⟨[(61, "!")], [], [], [], false, false, false, 64, false⟩

/-- Velocity table for the C3 counterexample. -/
def cexVmC3 : List (Nat × String) := [(10, "a"), (20, "b"), (30, "c"), (40, "d"), (50, "e")]

/-- Config used by the C4 witness. -/
def witCfgC4 : Config := ⟨[], [], [], [], false, false, true, 64, false⟩

/-- Config used by the C6 witness (no table maps any note). -/
def witCfgC6 : Config := ⟨[], [], [], [], false, false, false, 64, false⟩

/-- Config used by the C7 witness: velocity bracket and no-doubles
enabled, custom hold length disabled. -/
def witCfgC7 : Config :=
  ⟨[(60, "c"), (61, "C")], [], [], [(30, "1"), (80, "2")], true, true, false, 64, false⟩

/-- Velocity table used by the C9 witness. -/
def witVmC9 : List (Nat × String) := [(64, "x")]

/-- Predicate for counting backend release calls. -/
def isRelease : BEvent → Bool
  | .brelease _ => true
  | .bpress _ => false

/-- Number of backend release calls in a trace. -/
def countReleases (tr : List BEvent) : Nat := (tr.filter isRelease).length

theorem catchIndex_ne_indexError (r : St × List BEvent × Option PyErr) :
    (catchIndex r).2.2 ≠ some PyErr.indexError := by
  rcases r with ⟨s, t, e⟩
  rcases e with _ | e
  · simp [catchIndex]
  · cases e <;> simp [catchIndex]

theorem parseMidi_cc_eq (cfg : Config) (v : Nat) (s : St) :
    parseMidi cfg (.controlMsg v) s =
      if cfg.sustain then
        if !s.sustainActive && decide (v > cfg.sustainCutoff) then
          press (.str "space") { s with sustainActive := true }
        else if s.sustainActive && decide (v < cfg.sustainCutoff) then
          release (.str "space") { s with sustainActive := false }
        else (s, [], none)
      else (s, [], none) := rfl

theorem parseMidi_note_eq (cfg : Config) (t : MType) (note : Int) (v : Nat) (s : St) :
    parseMidi cfg (.noteMsg t note v) s =
      catchIndex (simulateKey cfg (if v = 0 then .note_off else t) note v s) := rfl

theorem parseMidi_cc_err_none (cfg : Config) (v : Nat) (s : St) :
    (parseMidi cfg (.controlMsg v) s).2.2 = none := by
  rw [parseMidi_cc_eq]
  split
  · split
    · rfl
    · split
      · rfl
      · rfl
  · rfl

/-- C2 — corrected. The per-event handler catches only `IndexError`: a
`KeyError` from a missing `letterNoteMap[str(note - 1)]` lookup in the
symbol branch escapes `parseMidi` (and would kill the reader thread).
Witnessed at note 61 mapped to `"!"` with note 60 unmapped. -/
theorem C2_counterexample :
    (parseMidi cexCfgC2 (.noteMsg .note_on 61 100) initSt).2.2 = some PyErr.keyError := by
  rfl

/-- C2 — amended claim: an `IndexError` raised while dispatching a single
event (the only one the code can raise is the empty-velocity-table
lookup) is caught by `parseMidi`, so it never escapes; other exception
classes are not caught. -/
theorem C2_amended (cfg : Config) (m : MidiMsg) (s : St) :
    (parseMidi cfg m s).2.2 ≠ some PyErr.indexError := by
  cases m with
  | controlMsg v =>
    rw [parseMidi_cc_err_none]
    simp
  | noteMsg t note velocity =>
    exact catchIndex_ne_indexError _

/-- C5 — confirmed. For every note with `note - 36` outside `[-15, 88]`,
handling either kind of note event is a complete no-op: no backend
calls, no state change, no exception. -/
theorem C5_range_gate (cfg : Config) (t : MType) (note : Int) (v : Nat) (s : St)
    (h : note - 36 < -15 ∨ 88 < note - 36) :
    parseMidi cfg (.noteMsg t note v) s = (s, [], none) := by
  have hgate : ¬(-15 ≤ note - 36 ∧ note - 36 ≤ 88) := by omega
  rw [parseMidi_note_eq]
  unfold simulateKey
  rw [if_neg hgate]
  rfl

theorem C5_range_gate_witness :
    parseMidi witCfgC6 (.noteMsg .note_on 200 10) initSt = (initSt, [], none) :=
  C5_range_gate witCfgC6 .note_on 200 10 initSt (Or.inr (by decide))

/-- C8 — confirmed. A `note_on` with velocity 0 is dispatched exactly as
a `note_off` with velocity 0: the two results agree in backend calls,
ledger, pressed-keys set, timers, sustain state, and raised exception. -/
theorem C8_zero_velocity_note_on (cfg : Config) (note : Int) (s : St) :
    parseMidi cfg (.noteMsg .note_on note 0) s = parseMidi cfg (.noteMsg .note_off note 0) s := by
  rfl

/-- C10 — confirmed. For each blocked key token (`f1` .. `f12`, `tab`,
`backspace`, `esc`, i.e. the pynput `Key` objects whose name is in
`blockedKeys`), `press` and `release` return immediately: no backend
event, no state change, no exception. -/
theorem C10_blocked_keys (k : SpecialKey) (s : St)
    (h : k ∈ [SpecialKey.f 1, .f 2, .f 3, .f 4, .f 5, .f 6, .f 7, .f 8, .f 9, .f 10,
      .f 11, .f 12, .tab, .backspace, .esc]) :
    press (.pyn k) s = (s, [], none) ∧ release (.pyn k) s = (s, [], none) := by
  fin_cases h <;> exact ⟨rfl, rfl⟩

theorem C10_blocked_keys_witness :
    press (.pyn .tab) initSt = (initSt, [], none) ∧
      release (.pyn .tab) initSt = (initSt, [], none) :=
  C10_blocked_keys .tab initSt (by decide)

theorem resolveKey_eq_resolveSpec (cfg : Config) (note : Int) :
    resolveKey cfg note = resolveSpec cfg note := by
  unfold resolveKey resolveSpec
  rcases lookupInt cfg.letterNoteMap note with _ | k1
  · rcases lookupInt cfg.lowNotes note with _ | k2
    · rcases lookupInt cfg.highNotes note with _ | k3 <;> rfl
    · rfl
  · rfl

/-- C6 — confirmed. The key is resolved by consulting the compact 61-key
map, then the low-extension map, then the high-extension map, first hit
wins (the code's chain coincides with the spec-side first-hit resolver);
and an in-range note that no table maps is dropped with no backend
calls, no state change and no exception. -/
theorem C6_resolution_order (cfg : Config) (note : Int) :
    resolveKey cfg note = resolveSpec cfg note ∧
      ∀ (t : MType) (v : Nat) (s : St),
        -15 ≤ note - 36 ∧ note - 36 ≤ 88 → resolveKey cfg note = none →
          simulateKey cfg t note v s = (s, [], none) := by
  refine ⟨resolveKey_eq_resolveSpec cfg note, ?_⟩
  intro t v s hgate hres
  unfold simulateKey
  rw [if_pos hgate, hres]

theorem C6_resolution_order_witness :
    resolveKey witCfgC6 60 = resolveSpec witCfgC6 60 ∧
      simulateKey witCfgC6 .note_on 60 77 initSt = (initSt, [], none) :=
  ⟨(C6_resolution_order witCfgC6 60).1,
    (C6_resolution_order witCfgC6 60).2 .note_on 77 initSt (by decide) (by decide)⟩

theorem press_space_eq (s : St) :
    press (.str "space") s =
      (⟨setInsert s.pressedKeys "space",
        dictInsert s.heldKeys "Key.space" (.single (.special .space)),
        s.timerList, s.sustainActive⟩,
       [.bpress (.special .space)], none) := rfl

theorem release_space_eq (s : St) :
    release (.str "space") s =
      (⟨setErase s.pressedKeys "space",
        dictErase s.heldKeys "Key.space",
        s.timerList, s.sustainActive⟩,
       [.brelease (.special .space)], none) := rfl

theorem cc_press (cfg : Config) (v : Nat) (s : St) (hs : cfg.sustain = true)
    (ha : s.sustainActive = false) (hv : cfg.sustainCutoff < v) :
    parseMidi cfg (.controlMsg v) s = press (.str "space") { s with sustainActive := true } := by
  rw [parseMidi_cc_eq, if_pos hs, if_pos]
  simp [ha, hv]

theorem cc_noop_inactive (cfg : Config) (v : Nat) (s : St) (hs : cfg.sustain = true)
    (ha : s.sustainActive = false) (hv : ¬cfg.sustainCutoff < v) :
    parseMidi cfg (.controlMsg v) s = (s, [], none) := by
  rw [parseMidi_cc_eq, if_pos hs, if_neg, if_neg]
  · simp [ha]
  · simp [ha, hv]

theorem cc_release (cfg : Config) (v : Nat) (s : St) (hs : cfg.sustain = true)
    (ha : s.sustainActive = true) (hv : v < cfg.sustainCutoff) :
    parseMidi cfg (.controlMsg v) s = release (.str "space") { s with sustainActive := false } := by
  rw [parseMidi_cc_eq, if_pos hs, if_neg, if_pos]
  · simp [ha, hv]
  · simp [ha]

theorem cc_noop_active (cfg : Config) (v : Nat) (s : St) (hs : cfg.sustain = true)
    (ha : s.sustainActive = true) (hv : ¬v < cfg.sustainCutoff) :
    parseMidi cfg (.controlMsg v) s = (s, [], none) := by
  rw [parseMidi_cc_eq, if_pos hs, if_neg, if_neg]
  · simp [ha, hv]
  · simp [ha]

theorem runMsgs_nil (cfg : Config) (s : St) : runMsgs cfg [] s = (s, [], none) := rfl

theorem runMsgs_cons_ok (cfg : Config) (m : MidiMsg) (ms : List MidiMsg) (s s1 : St)
    (t1 : List BEvent) (h : parseMidi cfg m s = (s1, t1, none)) :
    runMsgs cfg (m :: ms) s =
      ((runMsgs cfg ms s1).1, t1 ++ (runMsgs cfg ms s1).2.1, (runMsgs cfg ms s1).2.2) := by
  show aseq (parseMidi cfg m) (runMsgs cfg ms) s = _
  unfold aseq
  rw [h]

/-- C4 — confirmed. With sustain enabled and cutoff 64, the control-value
stream `[63, 65, 64, 65, 63]` from the inactive latch emits exactly one
press of the sustain key followed by exactly one release of it (and
nothing else), ending inactive; and in general a value equal to the
cutoff never changes anything, a value above the cutoff presses exactly
when the latch is inactive, and a value below the cutoff releases
exactly when it is active. -/
theorem C4_sustain_hysteresis (cfg : Config) (s : St) (hs : cfg.sustain = true)
    (hc : cfg.sustainCutoff = 64) (ha : s.sustainActive = false) :
    ((runMsgs cfg [.controlMsg 63, .controlMsg 65, .controlMsg 64, .controlMsg 65,
        .controlMsg 63] s).2.1 =
      [BEvent.bpress (.special .space), BEvent.brelease (.special .space)] ∧
      (runMsgs cfg [.controlMsg 63, .controlMsg 65, .controlMsg 64, .controlMsg 65,
        .controlMsg 63] s).2.2 = none ∧
      (runMsgs cfg [.controlMsg 63, .controlMsg 65, .controlMsg 64, .controlMsg 65,
        .controlMsg 63] s).1.sustainActive = false) ∧
    (∀ s' : St, parseMidi cfg (.controlMsg cfg.sustainCutoff) s' = (s', [], none)) ∧
    (∀ (s' : St) (v : Nat), s'.sustainActive = false → cfg.sustainCutoff < v →
      (parseMidi cfg (.controlMsg v) s').2.1 = [BEvent.bpress (.special .space)] ∧
        (parseMidi cfg (.controlMsg v) s').1.sustainActive = true ∧
        (parseMidi cfg (.controlMsg v) s').2.2 = none) ∧
    (∀ (s' : St) (v : Nat), s'.sustainActive = true → cfg.sustainCutoff < v →
      parseMidi cfg (.controlMsg v) s' = (s', [], none)) ∧
    (∀ (s' : St) (v : Nat), s'.sustainActive = true → v < cfg.sustainCutoff →
      (parseMidi cfg (.controlMsg v) s').2.1 = [BEvent.brelease (.special .space)] ∧
        (parseMidi cfg (.controlMsg v) s').1.sustainActive = false ∧
        (parseMidi cfg (.controlMsg v) s').2.2 = none) ∧
    (∀ (s' : St) (v : Nat), s'.sustainActive = false → v < cfg.sustainCutoff →
      parseMidi cfg (.controlMsg v) s' = (s', [], none)) := by
  refine ⟨?_, ?_, ?_, ?_, ?_, ?_⟩
  · have p1 : parseMidi cfg (.controlMsg 63) s = (s, [], none) :=
      cc_noop_inactive cfg 63 s hs ha (by omega)
    have p2 : parseMidi cfg (.controlMsg 65) s =
        (⟨setInsert s.pressedKeys "space",
          dictInsert s.heldKeys "Key.space" (.single (.special .space)),
          s.timerList, true⟩, [.bpress (.special .space)], none) := by
      rw [cc_press cfg 65 s hs ha (by omega), press_space_eq]
    have p3 : parseMidi cfg (.controlMsg 64)
        (⟨setInsert s.pressedKeys "space",
          dictInsert s.heldKeys "Key.space" (.single (.special .space)),
          s.timerList, true⟩ : St) =
        (⟨setInsert s.pressedKeys "space",
          dictInsert s.heldKeys "Key.space" (.single (.special .space)),
          s.timerList, true⟩, [], none) :=
      cc_noop_active cfg 64 _ hs rfl (by omega)
    have p4 : parseMidi cfg (.controlMsg 65)
        (⟨setInsert s.pressedKeys "space",
          dictInsert s.heldKeys "Key.space" (.single (.special .space)),
          s.timerList, true⟩ : St) =
        (⟨setInsert s.pressedKeys "space",
          dictInsert s.heldKeys "Key.space" (.single (.special .space)),
          s.timerList, true⟩, [], none) :=
      cc_noop_active cfg 65 _ hs rfl (by omega)
    have p5 : parseMidi cfg (.controlMsg 63)
        (⟨setInsert s.pressedKeys "space",
          dictInsert s.heldKeys "Key.space" (.single (.special .space)),
          s.timerList, true⟩ : St) =
        (⟨setErase (setInsert s.pressedKeys "space") "space",
          dictErase (dictInsert s.heldKeys "Key.space" (.single (.special .space))) "Key.space",
          s.timerList, false⟩, [.brelease (.special .space)], none) := by
      rw [cc_release cfg 63 _ hs rfl (by omega), release_space_eq]
    rw [runMsgs_cons_ok cfg _ _ _ _ _ p1, runMsgs_cons_ok cfg _ _ _ _ _ p2,
      runMsgs_cons_ok cfg _ _ _ _ _ p3, runMsgs_cons_ok cfg _ _ _ _ _ p4,
      runMsgs_cons_ok cfg _ _ _ _ _ p5, runMsgs_nil]
    exact ⟨rfl, rfl, rfl⟩
  · intro s'
    by_cases ha' : s'.sustainActive = true
    · exact cc_noop_active cfg _ s' hs ha' (by omega)
    · exact cc_noop_inactive cfg _ s' hs (by simpa using ha') (by omega)
  · intro s' v ha' hv
    rw [cc_press cfg v s' hs ha' hv, press_space_eq]
    exact ⟨rfl, rfl, rfl⟩
  · intro s' v ha' hv
    exact cc_noop_active cfg v s' hs ha' (by omega)
  · intro s' v ha' hv
    rw [cc_release cfg v s' hs ha' hv, release_space_eq]
    exact ⟨rfl, rfl, rfl⟩
  · intro s' v ha' hv
    exact cc_noop_inactive cfg v s' hs ha' (by omega)

theorem C4_sustain_hysteresis_witness :
    (runMsgs witCfgC4 [.controlMsg 63, .controlMsg 65, .controlMsg 64, .controlMsg 65,
      .controlMsg 63] initSt).2.1 =
      [BEvent.bpress (.special .space), BEvent.brelease (.special .space)] :=
  (C4_sustain_hysteresis witCfgC4 initSt rfl rfl rfl).1.1

theorem mem_insNat (x a : Nat) (l : List Nat) : a ∈ insNat x l ↔ a = x ∨ a ∈ l := by
  induction l with
  | nil => simp [insNat]
  | cons y ys ih =>
    by_cases h : x ≤ y
    · simp [insNat, h]
    · simp only [insNat, if_neg h, List.mem_cons, ih]
      tauto

theorem mem_sortNat (a : Nat) (l : List Nat) : a ∈ sortNat l ↔ a ∈ l := by
  induction l with
  | nil => simp [sortNat]
  | cons x xs ih => simp [sortNat, mem_insNat, ih]

theorem length_insNat (x : Nat) (l : List Nat) : (insNat x l).length = l.length + 1 := by
  induction l with
  | nil => rfl
  | cons y ys ih =>
    by_cases h : x ≤ y
    · simp [insNat, h]
    · simp [insNat, h, ih]

theorem length_sortNat (l : List Nat) : (sortNat l).length = l.length := by
  induction l with
  | nil => rfl
  | cons x xs ih => simp [sortNat, length_insNat, ih]

theorem lookupNat_mem (vm : List (Nat × String)) (k : Nat) (h : k ∈ vm.map Prod.fst) :
    ∃ s, lookupNat vm k = some s ∧ (k, s) ∈ vm := by
  induction vm with
  | nil => simp at h
  | cons p ps ih =>
    by_cases hp : p.1 = k
    · refine ⟨p.2, ?_, ?_⟩
      · simp [lookupNat, List.find?_cons, hp]
      · exact List.mem_cons.mpr (Or.inl (by rw [← hp]))
    · have hk : k ∈ ps.map Prod.fst := by
        rcases List.mem_map.mp h with ⟨q, hq, hqk⟩
        rcases List.mem_cons.mp hq with hq1 | hq2
        · exact absurd (hq1 ▸ hqk) hp
        · exact List.mem_map.mpr ⟨q, hq2, hqk⟩
      rcases ih hk with ⟨s, hs1, hs2⟩
      refine ⟨s, ?_, List.mem_cons_of_mem _ hs2⟩
      simpa [lookupNat, List.find?_cons, hp] using hs1

theorem lookupNat_some_mem (vm : List (Nat × String)) (k : Nat) (s : String)
    (h : lookupNat vm k = some s) : (k, s) ∈ vm := by
  unfold lookupNat at h
  rcases hf : vm.find? (fun p => p.1 = k) with _ | p
  · rw [hf] at h
    exact absurd h (by simp)
  · rw [hf] at h
    rcases p with ⟨p1, p2⟩
    injection h with h2
    have hk : p1 = k := by simpa using List.find?_some hf
    subst hk
    subst h2
    exact List.mem_of_find?_eq_some hf

theorem findVelocityKey_ok_mem (vm : List (Nat × String)) (v : Nat) (vk : String)
    (h : findVelocityKey vm v = .ok vk) : ∃ t, (t, vk) ∈ vm := by
  unfold findVelocityKey at h
  split at h
  · exact absurd h (by simp)
  · rcases hl : lookupNat vm ((sortNat (vm.map Prod.fst)).getD (fvkIndex vm v) 0) with _ | s
    · rw [hl] at h
      exact absurd h (by simp)
    · rw [hl] at h
      have hvk : s = vk := by injection h
      subst hvk
      exact ⟨_, lookupNat_some_mem _ _ _ hl⟩

theorem fvkLoop_le (ts : List Nat) (v : Nat) (minimum maximum index : Nat) :
    maximum ≤ ts.length - 1 → index ≤ ts.length - 1 →
      fvkLoop ts v minimum maximum index ≤ ts.length - 1 := by
  induction minimum, maximum, index using fvkLoop.induct ts v with
  | case1 minimum maximum index h1 h2 =>
    intro hmax _
    rw [fvkLoop, dif_pos h1, if_pos h2]
    omega
  | case2 minimum maximum index h1 h2 h3 ih =>
    intro hmax hidx
    rw [fvkLoop, dif_pos h1, if_neg h2, if_pos h3]
    exact ih hmax (by omega)
  | case3 minimum maximum index h1 h2 h3 ih =>
    intro hmax hidx
    rw [fvkLoop, dif_pos h1, if_neg h2, if_neg h3]
    exact ih (by omega) (by omega)
  | case4 minimum maximum index h =>
    intro _ hidx
    rw [fvkLoop, dif_neg h]
    exact hidx

theorem fvkLoop_below (ts : List Nat) (v : Nat)
    (hall : ∀ i, i < ts.length → ¬ts.getD i 0 < v) (minimum maximum index : Nat) :
    minimum = 0 → maximum ≤ ts.length - 1 → fvkLoop ts v minimum maximum index = 0 := by
  induction minimum, maximum, index using fvkLoop.induct ts v with
  | case1 minimum maximum index h1 h2 =>
    intro h0 hmax
    subst h0
    rw [fvkLoop, dif_pos h1, if_pos h2]
    omega
  | case2 minimum maximum index h1 h2 h3 ih =>
    intro h0 hmax
    subst h0
    exfalso
    have hlt : (0 + maximum) / 2 < ts.length := by omega
    exact hall _ hlt h3
  | case3 minimum maximum index h1 h2 h3 ih =>
    intro h0 hmax
    subst h0
    rw [fvkLoop, dif_pos h1, if_neg h2, if_neg h3]
    exact ih rfl (by omega)
  | case4 minimum maximum index h =>
    intro h0 hmax
    subst h0
    exact absurd (Nat.zero_le maximum) h

theorem sortNat_not_empty (vm : List (Nat × String)) (h : vm ≠ []) :
    (sortNat (vm.map Prod.fst)).isEmpty = false := by
  rcases vm with _ | ⟨p, ps⟩
  · exact absurd rfl h
  · have hlen : (sortNat ((p :: ps).map Prod.fst)).length = ps.length + 1 := by
      rw [length_sortNat]
      simp
    rcases hs : sortNat ((p :: ps).map Prod.fst) with _ | _
    · rw [hs] at hlen
      simp at hlen
    · rfl

theorem fvkIndex_lt (vm : List (Nat × String)) (v : Nat) (h : vm ≠ []) :
    fvkIndex vm v < (sortNat (vm.map Prod.fst)).length := by
  have hlen : (sortNat (vm.map Prod.fst)).length = vm.length := by
    rw [length_sortNat]
    simp
  have hpos : 0 < vm.length := List.length_pos.mpr h
  have := fvkLoop_le (sortNat (vm.map Prod.fst)) v 0
    ((sortNat (vm.map Prod.fst)).length - 1) 0 (by omega) (by omega)
  unfold fvkIndex
  omega

theorem findVelocityKey_total (vm : List (Nat × String)) (v : Nat) (h : vm ≠ []) :
    ∃ s, findVelocityKey vm v = .ok s ∧
      lookupNat vm ((sortNat (vm.map Prod.fst)).getD (fvkIndex vm v) 0) = some s := by
  have hidx := fvkIndex_lt vm v h
  have hmem : (sortNat (vm.map Prod.fst)).getD (fvkIndex vm v) 0 ∈ vm.map Prod.fst := by
    rw [← mem_sortNat]
    rw [List.getD_eq_getElem _ _ hidx]
    exact List.getElem_mem hidx
  rcases lookupNat_mem vm _ hmem with ⟨s, hs1, _⟩
  refine ⟨s, ?_, hs1⟩
  unfold findVelocityKey
  rw [if_neg (by rw [sortNat_not_empty vm h]; simp), hs1]

/-- C9 — confirmed. For every velocity and non-empty threshold table the
binary-search loop terminates with an in-bounds index (the loop is a
well-founded recursion on the window width in this model, so the
theorem exhibits the terminating value) and `findVelocityKey` returns a
bucket. -/
theorem C9_velocity_lookup_terminates (vm : List (Nat × String)) (v : Nat) (h : vm ≠ []) :
    fvkIndex vm v < (sortNat (vm.map Prod.fst)).length ∧
      ∃ s, findVelocityKey vm v = .ok s := by
  refine ⟨fvkIndex_lt vm v h, ?_⟩
  rcases findVelocityKey_total vm v h with ⟨s, hs, _⟩
  exact ⟨s, hs⟩

theorem C9_velocity_lookup_terminates_witness :
    fvkIndex witVmC9 100 < (sortNat (witVmC9.map Prod.fst)).length ∧
      ∃ s, findVelocityKey witVmC9 100 = .ok s :=
  C9_velocity_lookup_terminates witVmC9 100 (by decide)

/-- C3 — corrected. The classifier is deterministic (a pure function of
the table and velocity) and total on a non-empty table, the selected
threshold always belongs to the table with the returned bucket mapped
under it, and when the velocity lies below every threshold the first
(smallest) sorted threshold's bucket is returned; but the selected
threshold is not in general the closest one not exceeding the velocity
(see the counterexample). -/
theorem C3_amended (vm : List (Nat × String)) (v : Nat) (h : vm ≠ []) :
    ∃ t s, findVelocityThreshold vm v = some t ∧ t ∈ vm.map Prod.fst ∧
      findVelocityKey vm v = .ok s ∧ lookupNat vm t = some s ∧
      ((∀ u ∈ vm.map Prod.fst, v < u) → t = (sortNat (vm.map Prod.fst)).getD 0 0) := by
  have hidx := fvkIndex_lt vm v h
  have hmem : (sortNat (vm.map Prod.fst)).getD (fvkIndex vm v) 0 ∈ vm.map Prod.fst := by
    rw [← mem_sortNat]
    rw [List.getD_eq_getElem _ _ hidx]
    exact List.getElem_mem hidx
  rcases findVelocityKey_total vm v h with ⟨s, hs, hls⟩
  refine ⟨(sortNat (vm.map Prod.fst)).getD (fvkIndex vm v) 0, s, ?_, hmem, hs, hls, ?_⟩
  · unfold findVelocityThreshold
    rw [if_neg (by rw [sortNat_not_empty vm h]; simp)]
  · intro hbelow
    have hall : ∀ i, i < (sortNat (vm.map Prod.fst)).length →
        ¬(sortNat (vm.map Prod.fst)).getD i 0 < v := by
      intro i hi
      have : (sortNat (vm.map Prod.fst)).getD i 0 ∈ vm.map Prod.fst := by
        rw [← mem_sortNat]
        rw [List.getD_eq_getElem _ _ hi]
        exact List.getElem_mem hi
      have := hbelow _ this
      omega
    have h0 : fvkIndex vm v = 0 := by
      unfold fvkIndex
      exact fvkLoop_below _ v hall 0 _ 0 rfl (by omega)
    rw [h0]

theorem C3_amended_witness :
    ∃ t s, findVelocityThreshold cexVmC3 35 = some t ∧ t ∈ cexVmC3.map Prod.fst ∧
      findVelocityKey cexVmC3 35 = .ok s ∧ lookupNat cexVmC3 t = some s ∧
      ((∀ u ∈ cexVmC3.map Prod.fst, 35 < u) →
        t = (sortNat (cexVmC3.map Prod.fst)).getD 0 0) :=
  C3_amended cexVmC3 35 (by decide)

/-- C3 — counterexample to the claim as stated: with the ascending table
`{10, 20, 30, 40, 50}` and velocity 35 (which is not below the smallest
threshold), the search resolves threshold 40, whose value exceeds 35 —
not the closest threshold not exceeding the velocity. -/
theorem C3_counterexample :
    findVelocityThreshold cexVmC3 35 = some 40 ∧
      findVelocityKey cexVmC3 35 = Except.ok "d" ∧ ¬(40 : Nat) ≤ 35 ∧
      10 ∈ cexVmC3.map Prod.fst ∧ (10 : Nat) ≤ 35 := by
  have hts : sortNat (cexVmC3.map Prod.fst) = [10, 20, 30, 40, 50] := by decide
  have h1 : fvkLoop [10, 20, 30, 40, 50] 35 0 4 0 = 3 := by
    simp [fvkLoop]
  have hidx : fvkIndex cexVmC3 35 = 3 := by
    show fvkLoop (sortNat (cexVmC3.map Prod.fst)) 35 0
      ((sortNat (cexVmC3.map Prod.fst)).length - 1) 0 = 3
    rw [hts]
    exact h1
  refine ⟨?_, ?_, by omega, by decide, by omega⟩
  · unfold findVelocityThreshold
    rw [hts, hidx]
    rfl
  · unfold findVelocityKey
    rw [hts, hidx]
    rfl

theorem release_trace (kin : KeyInput) (s : St) :
    (release kin s).2.1 =
      (match translateKey kin with
       | .error _ => []
       | .ok o =>
         if isBlockedKey o then []
         else
           match o with
           | .char c =>
             if shiftChars.contains c then
               [BEvent.brelease (.char c), BEvent.brelease (.special .shift)]
             else [BEvent.brelease (.char c)]
           | .special sk => [BEvent.brelease (.special sk)]) := by
  unfold release
  rcases translateKey kin with e | o
  · rfl
  · by_cases hb : isBlockedKey o = true
    · simp [hb]
    · rcases o with sk | c
      · simp [hb, plainRelease]
      · by_cases hc : c ∈ shiftChars
        · simp [hb, hc]
        · simp [hb, hc, plainRelease]

theorem stopEntrySweep_trace (k : String) (s : St) :
    (stopEntrySweep k s).2.1 = entryReleases k := by
  by_cases hsh : strStarts k "shift+" = true
  · unfold stopEntrySweep entryReleases
    rw [if_pos hsh, if_pos hsh]
    split <;> rfl
  · unfold stopEntrySweep entryReleases
    rw [if_neg hsh, if_neg hsh]
    rcases hr : release (.str k) s with ⟨s1, t, e⟩
    have ht := release_trace (.str k) s
    rw [hr] at ht
    exact ht

theorem stopEntrySweep_err (k : String) (s : St) : (stopEntrySweep k s).2.2 = none := by
  unfold stopEntrySweep
  split
  · split <;> rfl
  · rcases hr : release (.str k) s with ⟨s1, t, e⟩
    rfl

theorem aseq_ok (a b : Act) (s : St) (h : (a s).2.2 = none) :
    aseq a b s = ((b (a s).1).1, (a s).2.1 ++ (b (a s).1).2.1, (b (a s).1).2.2) := by
  unfold aseq
  rcases ha : a s with ⟨s1, t1, e1⟩
  have he : e1 = none := by
    rw [ha] at h
    exact h
  subst he
  rfl

theorem sweepAct_spec (ks : List String) (s : St) :
    (sweepAct ks s).2.1 = (ks.map entryReleases).flatten ∧ (sweepAct ks s).2.2 = none := by
  induction ks generalizing s with
  | nil => exact ⟨rfl, rfl⟩
  | cons k ks ih =>
    have he := stopEntrySweep_err k s
    have hq : sweepAct (k :: ks) s = aseq (stopEntrySweep k) (sweepAct ks) s := rfl
    rw [hq, aseq_ok _ _ _ he]
    constructor
    · show (stopEntrySweep k s).2.1 ++ (sweepAct ks (stopEntrySweep k s).1).2.1 = _
      rw [stopEntrySweep_trace, (ih _).1, List.map_cons, List.flatten_cons]
    · exact (ih _).2

/-- C1 — amended claim: one call to `stopMidiInput` always empties the
held-key ledger and the timer list and raises nothing; the backend
releases it issues are exactly, per ledger entry in order: one release
for a plain single-character entry, a character release plus a shift
release for a `"shift+"` entry, and none for an entry whose recorded
identity does not translate back to a key (special-key entries such as
`"Key.space"`, whose `ValueError` the sweep swallows); a second
immediate call is a no-op: no backend events, no error, ledger still
empty. -/
theorem C1_amended (s : St) :
    (stopMidiInput s).2.2 = none ∧ (stopMidiInput s).1.heldKeys = [] ∧
      (stopMidiInput s).1.timerList = [] ∧
      (stopMidiInput s).2.1 = ((s.heldKeys.map Prod.fst).map entryReleases).flatten ∧
      stopMidiInput (stopMidiInput s).1 = ((stopMidiInput s).1, [], none) := by
  have heq : stopMidiInput s =
      (⟨(sweepAct (s.heldKeys.map Prod.fst) s).1.pressedKeys, [], [],
        (sweepAct (s.heldKeys.map Prod.fst) s).1.sustainActive⟩,
       (sweepAct (s.heldKeys.map Prod.fst) s).2.1, none) := by
    unfold stopMidiInput
    rcases hs : sweepAct (s.heldKeys.map Prod.fst) s with ⟨s1, tr, e⟩
    rfl
  rw [heq]
  refine ⟨rfl, rfl, rfl, (sweepAct_spec _ _).1, ?_⟩
  rfl

/-- C1 — counterexample to the claim as stated: after the handled event
stream consisting of one sustain-pedal-down control change, the ledger
holds exactly one entry (`"Key.space"`), yet `stopMidiInput` issues zero
backend releases for it (the claim demands exactly one per entry); the
ledger is nevertheless empty afterwards. -/
theorem C1_counterexample :
    cexStC1.heldKeys.length = 1 ∧ countReleases (stopMidiInput cexStC1).2.1 = 0 ∧
      (stopMidiInput cexStC1).1.heldKeys = [] := by
  decide

theorem charToLower_eq (d : Char) :
    Char.toLower d = if 65 ≤ d.toNat ∧ d.toNat ≤ 90 then Char.ofNat (d.toNat + 32) else d := rfl

theorem toNat_charOfNat (n : Nat) (h : Nat.isValidChar n) : (Char.ofNat n).toNat = n := by
  rw [Char.ofNat, dif_pos h]
  rfl

theorem charToLower_idem (c : Char) : Char.toLower (Char.toLower c) = Char.toLower c := by
  by_cases h : 65 ≤ c.toNat ∧ c.toNat ≤ 90
  · have h1 : (Char.toLower c).toNat = c.toNat + 32 := by
      rw [charToLower_eq, if_pos h]
      exact toNat_charOfNat _ (Or.inl (by omega))
    rw [charToLower_eq (Char.toLower c), if_neg (by rw [h1]; omega)]
  · rw [charToLower_eq c, if_neg h, charToLower_eq c, if_neg h]

theorem mapToLower_idem (l : List Char) :
    (l.map Char.toLower).map Char.toLower = l.map Char.toLower := by
  induction l with
  | nil => rfl
  | cons c cs ih => simp [charToLower_idem, ih]

theorem strLower_idem (t : String) : strLower (strLower t) = strLower t := by
  unfold strLower
  exact congrArg String.mk (mapToLower_idem t.data)

theorem translateKey_str_eq (s : String) :
    translateKey (.str s) =
      (match specialOfName (strLower s) with
       | some k => .ok (.special k)
       | none =>
         match (strLower s).data with
         | [c] => .ok (.char c)
         | _ => .error .valueError) := rfl

theorem translate_strLower (t : String) :
    translateKey (.str (strLower t)) = translateKey (.str t) := by
  rw [translateKey_str_eq, translateKey_str_eq, strLower_idem]

theorem blockedNames_contains_strOne (c : Char) :
    blockedNames.contains (strOne c) = false := by
  by_contra hcon
  rw [Bool.not_eq_false] at hcon
  have hmem : strOne c ∈ blockedNames := by simpa using hcon
  have hall : ∀ x ∈ blockedNames, x.data.length ≠ 1 := by decide
  exact hall _ hmem rfl

theorem translate_str_not_blocked (t : String) (o : KeyObj)
    (h : translateKey (.str t) = .ok o) : isBlockedKey o = false := by
  rw [translateKey_str_eq] at h
  rcases hs : specialOfName (strLower t) with _ | k
  · rw [hs] at h
    rcases hd : (strLower t).data with _ | ⟨c, cs⟩
    · rw [hd] at h
      exact absurd h (by simp)
    · rcases cs with _ | ⟨c2, cs2⟩
      · rw [hd] at h
        have h2 : KeyObj.char c = o := by injection h
        subst h2
        unfold isBlockedKey
        exact blockedNames_contains_strOne _
      · rw [hd] at h
        exact absurd h (by simp)
  · rw [hs] at h
    have h2 : KeyObj.special k = o := by injection h
    subst h2
    unfold specialOfName at hs
    split_ifs at hs
    · have hk : SpecialKey.shift = k := by injection hs
      subst hk
      rfl
    · have hk : SpecialKey.ctrl = k := by injection hs
      subst hk
      rfl
    · have hk : SpecialKey.alt = k := by injection hs
      subst hk
      rfl
    · have hk : SpecialKey.space = k := by injection hs
      subst hk
      rfl

theorem tokenOk_exists (t : String) (h : tokenOk t = true) :
    ∃ o, translateKey (.str t) = .ok o := by
  unfold tokenOk at h
  rcases ht : translateKey (.str t) with e | o
  · rw [ht] at h
    exact absurd h (by simp)
  · exact ⟨o, rfl⟩

theorem dictErase_nil (k : String) : dictErase [] k = [] := rfl

theorem dictInsert_nil (k : String) (v : HeldVal) : dictInsert [] k v = [(k, v)] := rfl

theorem dictErase_single_self (k : String) (v : HeldVal) : dictErase [(k, v)] k = [] := by
  simp [dictErase]

theorem insert_insert_erase_cases (a b : String) (va vb : HeldVal) :
    dictErase (dictInsert (dictInsert [] a va) b vb) a = [] ∨
      dictErase (dictInsert (dictInsert [] a va) b vb) a = [(b, vb)] := by
  by_cases hab : b = a
  · subst hab
    left
    simp [dictInsert, dictErase]
  · right
    simp [dictInsert, dictErase, hab, Ne.symm hab]

theorem erase_insert_pair (a b : String) (va vb : HeldVal) :
    dictErase (dictErase (dictInsert (dictInsert [] a va) b vb) b) a = [] := by
  by_cases hab : b = a
  · subst hab
    simp [dictInsert, dictErase]
  · simp [dictInsert, dictErase, hab, Ne.symm hab]

theorem hk_skip : HKOk skip id := fun _ => ⟨rfl, rfl⟩

theorem hk_aseq {a b : Act} {f g : List (String × HeldVal) → List (String × HeldVal)}
    (ha : HKOk a f) (hb : HKOk b g) : HKOk (aseq a b) (fun d => g (f d)) := by
  intro s
  rw [aseq_ok a b s (ha s).1]
  exact ⟨(hb _).1, by rw [(hb _).2, (ha s).2]⟩

theorem hk_press (t : String) (o : KeyObj) (h : translateKey (.str t) = .ok o) :
    HKOk (press (.str t)) (fun d => dictInsert d (entryKeyOf o) (entryValOf o)) := by
  have hb := translate_str_not_blocked t o h
  intro s
  rcases o with sk | c
  · constructor
    · simp [press, h, hb, plainPress]
    · simp [press, h, hb, plainPress, entryKeyOf, entryValOf, logKeys, pyStr]
  · by_cases hc : c ∈ shiftChars
    · constructor
      · simp [press, h, hb, hc]
      · simp [press, h, hb, hc, entryKeyOf, entryValOf]
    · constructor
      · simp [press, h, hb, hc, plainPress]
      · simp [press, h, hb, hc, plainPress, entryKeyOf, entryValOf, logKeys, pyStr]

theorem hk_release (t : String) (o : KeyObj) (h : translateKey (.str t) = .ok o) :
    HKOk (release (.str t)) (fun d => dictErase d (entryKeyOf o)) := by
  have hb := translate_str_not_blocked t o h
  intro s
  rcases o with sk | c
  · constructor
    · simp [release, h, hb, plainRelease]
    · simp [release, h, hb, plainRelease, entryKeyOf, logKeys, pyStr]
  · by_cases hc : c ∈ shiftChars
    · constructor
      · simp [release, h, hb, hc]
      · simp [release, h, hb, hc, entryKeyOf]
    · constructor
      · simp [release, h, hb, hc, plainRelease]
      · simp [release, h, hb, hc, plainRelease, entryKeyOf, logKeys, pyStr]

theorem hk_pam (cfg : Config) (t : String) (o : KeyObj) (h : translateKey (.str t) = .ok o) :
    HKOk (pressAndMaybeRelease cfg (.str t))
      (fun d => dictInsert d (entryKeyOf o) (entryValOf o)) := by
  have h2 : HKOk (fun s =>
      if cfg.customHoldEnabled then
        ({ s with timerList := s.timerList ++ [KeyInput.str t] }, [], none)
      else (s, [], none)) id := by
    intro s
    split <;> exact ⟨rfl, rfl⟩
  exact hk_aseq (hk_press t o h) h2

theorem catchIndex_none (r : St × List BEvent × Option PyErr) (h : r.2.2 = none) :
    catchIndex r = r := by
  rcases r with ⟨s, t, e⟩
  rcases e with _ | e
  · rfl
  · exact absurd h (by simp)

theorem velAct_hk (cfg : Config) (velocity : Nat)
    (hvm : cfg.velocity = true →
      cfg.velocityMap ≠ [] ∧ ∀ p ∈ cfg.velocityMap, tokenOk p.2 = true) :
    ∀ s : St, s.heldKeys = [] →
      (velAct cfg velocity s).2.2 = none ∧ (velAct cfg velocity s).1.heldKeys = [] := by
  intro s hs
  by_cases hv : cfg.velocity = true
  · obtain ⟨hne, htok⟩ := hvm hv
    obtain ⟨vk, hvk, _⟩ := findVelocityKey_total cfg.velocityMap velocity hne
    obtain ⟨tk, htk⟩ := findVelocityKey_ok_mem _ _ _ hvk
    obtain ⟨o, ho⟩ := tokenOk_exists vk (htok _ htk)
    have H := hk_aseq (hk_press "alt" (.special .alt) rfl)
      (hk_aseq (hk_press vk o ho)
        (hk_aseq (hk_release vk o ho) (hk_release "alt" (.special .alt) rfl)))
    obtain ⟨He, Hh⟩ := H s
    have e1 : velAct cfg velocity s =
        (aseq (press (.str "alt"))
          (aseq (press (.str vk)) (aseq (release (.str vk)) (release (.str "alt"))))) s := by
      unfold velAct
      rw [if_pos hv, hvk]
    rw [e1]
    refine ⟨He, ?_⟩
    rw [Hh, hs]
    exact erase_insert_pair _ _ _ _
  · have e1 : velAct cfg velocity s = (s, [], none) := by
      unfold velAct
      rw [if_neg hv]
      rfl
    rw [e1]
    exact ⟨rfl, hs⟩

theorem dedupAct_hk (cfg : Config) (note : Int) (key : String) (o : KeyObj)
    (h : translateKey (.str key) = .ok o) (hsym : hasSymbol key = false) :
    ∀ s : St, s.heldKeys = [] →
      (dedupAct cfg note key s).2.2 = none ∧ (dedupAct cfg note key s).1.heldKeys = [] := by
  intro s hs
  have hlow : translateKey (.str (strLower key)) = .ok o := by
    rw [translate_strLower]
    exact h
  unfold dedupAct
  by_cases hd : cfg.noDoubles = true
  · rw [if_pos hd, if_neg (by simp [hsym])]
    obtain ⟨He, Hh⟩ := hk_release (strLower key) o hlow s
    refine ⟨He, ?_⟩
    rw [Hh, hs]
    exact dictErase_nil _
  · rw [if_neg hd]
    exact ⟨rfl, hs⟩

theorem branchAct_hk (cfg : Config) (note : Int) (key : String) (o : KeyObj)
    (h : translateKey (.str key) = .ok o) (hsym : hasSymbol key = false) :
    ∀ s : St, s.heldKeys = [] →
      (branchAct cfg note key s).2.2 = none ∧
        ((branchAct cfg note key s).1.heldKeys = [] ∨
          (branchAct cfg note key s).1.heldKeys = [(entryKeyOf o, entryValOf o)]) := by
  intro s hs
  have hlow : translateKey (.str (strLower key)) = .ok o := by
    rw [translate_strLower]
    exact h
  unfold branchAct
  rw [if_neg (by simp [hsym])]
  by_cases hu : pyIsUpper key = true
  · rw [if_pos hu]
    have H := hk_aseq (hk_press "shift" (.special .shift) rfl)
      (hk_aseq (hk_pam cfg (strLower key) o hlow) (hk_release "shift" (.special .shift) rfl))
    obtain ⟨He, Hh⟩ := H s
    refine ⟨He, ?_⟩
    rw [Hh, hs]
    exact insert_insert_erase_cases _ _ _ _
  · rw [if_neg hu]
    obtain ⟨He, Hh⟩ := hk_pam cfg key o h s
    refine ⟨He, Or.inr ?_⟩
    rw [Hh, hs]
    rfl

theorem noteOnAct_held (cfg : Config) (note : Int) (velocity : Nat) (key : String) (o : KeyObj)
    (h : translateKey (.str key) = .ok o) (hsym : hasSymbol key = false)
    (hvm : cfg.velocity = true →
      cfg.velocityMap ≠ [] ∧ ∀ p ∈ cfg.velocityMap, tokenOk p.2 = true)
    (hreg : 36 ≤ note ∧ note ≤ 96) :
    ∀ s : St, s.heldKeys = [] →
      (noteOnAct cfg note velocity key s).2.2 = none ∧
        ((noteOnAct cfg note velocity key s).1.heldKeys = [] ∨
          (noteOnAct cfg note velocity key s).1.heldKeys = [(entryKeyOf o, entryValOf o)]) := by
  intro s hs
  have e1 : noteOnAct cfg note velocity key s =
      aseq (velAct cfg velocity) (aseq (dedupAct cfg note key) (branchAct cfg note key)) s := by
    unfold noteOnAct
    rw [if_pos hreg]
  rw [e1]
  obtain ⟨Ve, Vh⟩ := velAct_hk cfg velocity hvm s hs
  rw [aseq_ok _ _ _ Ve]
  obtain ⟨De, Dh⟩ := dedupAct_hk cfg note key o h hsym _ Vh
  rw [aseq_ok _ _ _ De]
  exact branchAct_hk cfg note key o h hsym _ Dh

theorem noteOffAct_held (cfg : Config) (note : Int) (key : String) (o : KeyObj)
    (h : translateKey (.str key) = .ok o) (hsym : hasSymbol key = false)
    (hreg : 36 ≤ note ∧ note ≤ 96) :
    ∀ s : St,
      (s.heldKeys = [] ∨ s.heldKeys = [(entryKeyOf o, entryValOf o)]) →
      (noteOffAct cfg note key s).2.2 = none ∧ (noteOffAct cfg note key s).1.heldKeys = [] := by
  intro s hs
  have hlow : translateKey (.str (strLower key)) = .ok o := by
    rw [translate_strLower]
    exact h
  have e1 : noteOffAct cfg note key s = release (.str (strLower key)) s := by
    unfold noteOffAct
    rw [if_pos hreg, if_neg (by simp [hsym])]
  rw [e1]
  obtain ⟨He, Hh⟩ := hk_release (strLower key) o hlow s
  refine ⟨He, ?_⟩
  rw [Hh]
  rcases hs with hs | hs <;> rw [hs]
  · exact dictErase_nil _
  · exact dictErase_single_self _ _

theorem translate_empty_ne (o : KeyObj) : translateKey (.str "") ≠ .ok o := by
  intro hcon
  exact Except.noConfusion hcon

/-- C7 — confirmed. For a note in the natural register `[36, 96]` whose
resolved key is not a shift-wrapped symbol (and is a usable key token),
with the custom hold-length override disabled (and, if the velocity
bracket is enabled, a well-formed velocity table), handling `note_on`
immediately followed by `note_off` for the same note from an empty
held-key ledger raises nothing and leaves the ledger empty. -/
theorem C7_round_trip (cfg : Config) (s : St) (note : Int) (v v2 : Nat) (key : String)
    (hhold : cfg.customHoldEnabled = false)
    (hreg : 36 ≤ note ∧ note ≤ 96)
    (hres : resolveKey cfg note = some key)
    (hsym : hasSymbol key = false)
    (htok : tokenOk key = true)
    (hvm : cfg.velocity = true →
      cfg.velocityMap ≠ [] ∧ ∀ p ∈ cfg.velocityMap, tokenOk p.2 = true)
    (hv : v ≠ 0)
    (hheld : s.heldKeys = []) :
    (runMsgs cfg [.noteMsg .note_on note v, .noteMsg .note_off note v2] s).2.2 = none ∧
      (runMsgs cfg [.noteMsg .note_on note v, .noteMsg .note_off note v2] s).1.heldKeys = [] := by
  obtain ⟨o, ho⟩ := tokenOk_exists key htok
  have hkey_ne : ¬key = "" := by
    intro h0
    rw [h0] at ho
    exact translate_empty_ne o ho
  obtain ⟨One, Ohh⟩ := noteOnAct_held cfg note v key o ho hsym hvm hreg s hheld
  have e1 : parseMidi cfg (.noteMsg .note_on note v) s = noteOnAct cfg note v key s := by
    rw [parseMidi_note_eq, if_neg hv]
    have e2 : simulateKey cfg .note_on note v s = noteOnAct cfg note v key s := by
      unfold simulateKey
      rw [if_pos (by omega : -15 ≤ note - 36 ∧ note - 36 ≤ 88), hres]
      show (if key = "" then (s, [], none) else noteOnAct cfg note v key s) =
        noteOnAct cfg note v key s
      rw [if_neg hkey_ne]
    rw [e2]
    exact catchIndex_none _ One
  have e1' : parseMidi cfg (.noteMsg .note_on note v) s =
      ((noteOnAct cfg note v key s).1, (noteOnAct cfg note v key s).2.1, none) := by
    rw [e1, ← One]
  obtain ⟨Fe, Fh⟩ := noteOffAct_held cfg note key o ho hsym hreg
    ((noteOnAct cfg note v key s).1) Ohh
  have e3 : parseMidi cfg (.noteMsg .note_off note v2) ((noteOnAct cfg note v key s).1) =
      noteOffAct cfg note key ((noteOnAct cfg note v key s).1) := by
    rw [parseMidi_note_eq]
    have e4 : simulateKey cfg (if v2 = 0 then MType.note_off else MType.note_off) note v2
        ((noteOnAct cfg note v key s).1) =
        noteOffAct cfg note key ((noteOnAct cfg note v key s).1) := by
      rw [ite_self]
      unfold simulateKey
      rw [if_pos (by omega : -15 ≤ note - 36 ∧ note - 36 ≤ 88), hres]
      show (if key = "" then ((noteOnAct cfg note v key s).1, [], none)
          else noteOffAct cfg note key ((noteOnAct cfg note v key s).1)) =
        noteOffAct cfg note key ((noteOnAct cfg note v key s).1)
      rw [if_neg hkey_ne]
    rw [e4]
    exact catchIndex_none _ Fe
  have e3' : parseMidi cfg (.noteMsg .note_off note v2) ((noteOnAct cfg note v key s).1) =
      ((noteOffAct cfg note key ((noteOnAct cfg note v key s).1)).1,
        (noteOffAct cfg note key ((noteOnAct cfg note v key s).1)).2.1, none) := by
    rw [e3, ← Fe]
  rw [runMsgs_cons_ok cfg _ _ _ _ _ e1', runMsgs_cons_ok cfg _ _ _ _ _ e3', runMsgs_nil]
  exact ⟨rfl, Fh⟩

theorem C7_round_trip_witness :
    (runMsgs witCfgC7 [.noteMsg .note_on 60 100, .noteMsg .note_off 60 0] initSt).2.2 = none ∧
      (runMsgs witCfgC7 [.noteMsg .note_on 60 100,
        .noteMsg .note_off 60 0] initSt).1.heldKeys = [] :=
  C7_round_trip witCfgC7 initSt 60 100 0 "c" rfl (by decide) (by decide) (by decide) (by decide)
    (fun _ => ⟨by decide, by decide⟩) (by decide) rfl

end MidiQwerty
